import Mathlib

/-!
Verification of the timeline/transition pipeline of the DNS-resolver analysis
repository, centred on `analyze_asn_migrations.py`.

The shallow embedding below models the two SQL-based computations of that file:

* `get_asn_migrations` (windowed detector): rows with `timestamp > cutoff AND
  asn IS NOT NULL` are ordered by timestamp per hostname; `LEAD` pairs each
  observation with its successor, pairs with differing ASN become migration
  records, which are sorted by `start_time DESC` and truncated with `LIMIT 50`.
* `get_cloudflare_migrations` (pivot detector): rows with `success = 1 AND asn
  IS NOT NULL` are grouped by `(hostname, asn)` into `[MIN(timestamp),
  MAX(timestamp)]` spans; a self-join emits a record for every ordered pair of
  same-hostname groups with `h2.first_seen > h1.last_seen`, `h1.asn != h2.asn`
  and one side equal to the pivot ASN, sorted by `start_time DESC`.

Timestamps are modelled as naturals (the SQL text timestamps are totally
ordered; only their order matters to every claim). A SQL `NULL` attribute is
`Option.none`.
-/

/-- A row of the `dns_results` table, restricted to the columns the
migration queries read: `hostname`, `asn` (nullable), `timestamp`,
`success`. -/
structure Obs where
  hostname : String
  asn : Option String
  timestamp : Nat
  success : Bool
deriving DecidableEq, Repr

/-- A row of the result set of `get_asn_migrations`: the columns of the
`changes` CTE that survive the outer `SELECT` (the derived `duration_days`
column is a function of `start_time`/`end_time` and is not modelled). -/
structure Migration where
  hostname : String
  from_asn : String
  to_asn : String
  start_time : Nat
  end_time : Nat
deriving DecidableEq, Repr

/-- An occupancy interval: a maximal run of same-ASN observations of one
hostname, spanning the run's first and last observation timestamps. -/
structure OccInterval where
  hostname : String
  asn : String
  start : Nat
  stop : Nat
deriving DecidableEq, Repr

/-- A row of the `hostname_asns` CTE of `get_cloudflare_migrations`: one
`(hostname, asn)` group with `MIN(timestamp)` and `MAX(timestamp)`. -/
structure HostAsn where
  hostname : String
  asn : String
  first_seen : Nat
  last_seen : Nat
deriving DecidableEq, Repr

/-- A row of the `migrations` CTE of `get_cloudflare_migrations` (the seven
selected columns). -/
structure CfMigration where
  hostname : String
  from_asn : String
  to_asn : String
  start_time : Nat
  end_time : Nat
  next_start_time : Nat
  next_end_time : Nat
deriving DecidableEq, Repr

/-- The pivot attribute value hard-coded by the script
(`CLOUDFLARE_ASN = 'AS13335 Cloudflare, Inc.'`). -/
def CLOUDFLARE_ASN : String := "AS13335 Cloudflare, Inc."

/-! ## A stable sort realising SQL `ORDER BY` -/

/-- Insert `a` into `l` before the first element `b` with `le a b`;
auxiliary to `sortBy`. -/
def insertBy {α : Type} (le : α → α → Bool) (a : α) : List α → List α
  | [] => [a]
  | b :: t => if le a b then a :: b :: t else b :: insertBy le a t

/-- Stable insertion sort by the Boolean comparison `le`; realises SQL
`ORDER BY` (any total preorder; ties keep input order). -/
def sortBy {α : Type} (le : α → α → Bool) : List α → List α
  | [] => []
  | a :: t => insertBy le a (sortBy le t)

/-! ## Windowed detector (`get_asn_migrations`) -/

/-- The `WHERE timestamp > ? AND asn IS NOT NULL` filter of the `changes`
CTE, applied to the whole observation log. -/
def windowedRows (log : List Obs) (cutoff : Nat) : List Obs :=
  log.filter (fun o => decide (cutoff < o.timestamp) && o.asn.isSome)

/-- The rows of one window partition (`PARTITION BY hostname ORDER BY
timestamp`): the windowed rows of hostname `h`, sorted by timestamp. -/
def entityRows (log : List Obs) (cutoff : Nat) (h : String) : List Obs :=
  sortBy (fun a b => decide (a.timestamp ≤ b.timestamp))
    ((windowedRows log cutoff).filter (fun o => o.hostname == h))

/-- Each list element paired with its successor; realises `LEAD(...) OVER`
on an ordered partition (the final row, whose `LEAD` is `NULL`, yields no
pair, matching the `to_asn IS NOT NULL` filter). -/
def consecutivePairs {α : Type} (l : List α) : List (α × α) :=
  l.zip l.tail

/-- The migration rows an ordered observation list of hostname `h`
contributes to the `changes` CTE: consecutive observation pairs whose ASNs
differ (`from_asn != to_asn`). -/
def transOfRows (h : String) (l : List Obs) : List Migration :=
  (consecutivePairs l).filterMap (fun p =>
    if p.1.asn.getD "" = p.2.asn.getD "" then none
    else some ⟨h, p.1.asn.getD "", p.2.asn.getD "", p.1.timestamp,
      p.2.timestamp⟩)

/-- The migration rows the `changes` CTE contributes for hostname `h`. -/
def entityTransitions (log : List Obs) (cutoff : Nat) (h : String) :
    List Migration :=
  transOfRows h (entityRows log cutoff h)

/-- The hostnames appearing in the window (the partitions of the window
function), in order of first appearance. -/
def allHostnames (log : List Obs) (cutoff : Nat) : List String :=
  ((windowedRows log cutoff).map (fun o => o.hostname)).dedup

/-- All migration rows of the `changes` CTE after the outer `WHERE`
(`to_asn IS NOT NULL AND from_asn != to_asn`), before `ORDER BY`/`LIMIT`. -/
def asnTransitionsAll (log : List Obs) (cutoff : Nat) : List Migration :=
  (allHostnames log cutoff).flatMap (fun h => entityTransitions log cutoff h)

/-- `ORDER BY start_time DESC` on migration rows. -/
def sortMigrationsDesc (l : List Migration) : List Migration :=
  sortBy (fun a b => decide (b.start_time ≤ a.start_time)) l

/-- The result set of `get_asn_migrations`: the `changes` rows ordered by
`start_time DESC` and truncated by `LIMIT 50`. -/
def getAsnMigrations (log : List Obs) (cutoff : Nat) : List Migration :=
  (sortMigrationsDesc (asnTransitionsAll log cutoff)).take 50

/-! ## Occupancy intervals (the Timeline Builder view of a partition) -/

/-- Close off maximal same-ASN runs: `runsFrom h a s e rest` scans `rest`
with a current interval `(a, s, e)` open, extending it on equal ASN and
closing it on a change. -/
def runsFrom (h a : String) (s e : Nat) : List Obs → List OccInterval
  | [] => [⟨h, a, s, e⟩]
  | o :: rest =>
    if o.asn.getD "" = a then runsFrom h a s o.timestamp rest
    else ⟨h, a, s, e⟩ :: runsFrom h (o.asn.getD "") o.timestamp o.timestamp rest

/-- The occupancy intervals of an ordered observation list of hostname
`h`: maximal runs of equal ASN, spanning first to last run timestamp. -/
def intervalsOfRows (h : String) : List Obs → List OccInterval
  | [] => []
  | o :: rest => runsFrom h (o.asn.getD "") o.timestamp o.timestamp rest

/-- The occupancy intervals of hostname `h` in the window. -/
def entityIntervals (log : List Obs) (cutoff : Nat) (h : String) :
    List OccInterval :=
  intervalsOfRows h (entityRows log cutoff h)

/-! ## Pivot detector (`get_cloudflare_migrations`) -/

/-- The `WHERE success = 1 AND asn IS NOT NULL` filter of the
`hostname_asns` CTE. -/
def usableRows (log : List Obs) : List Obs :=
  log.filter (fun o => o.success && o.asn.isSome)

/-- The `(hostname, asn)` group keys of `GROUP BY hostname, asn`, in order
of first appearance. -/
def hostAsnPairs (log : List Obs) : List (String × String) :=
  ((usableRows log).map (fun o => (o.hostname, o.asn.getD ""))).dedup

/-- The rows of one `(hostname, asn)` group. -/
def pairRows (log : List Obs) (h a : String) : List Obs :=
  (usableRows log).filter (fun o => o.hostname == h && o.asn.getD "" == a)

/-- `MIN(timestamp)` of a row list (`0` for the empty list, which never
arises for a non-empty group). -/
def minTs : List Obs → Nat
  | [] => 0
  | o :: rest => rest.foldl (fun m x => min m x.timestamp) o.timestamp

/-- `MAX(timestamp)` of a row list. -/
def maxTs : List Obs → Nat
  | [] => 0
  | o :: rest => rest.foldl (fun m x => max m x.timestamp) o.timestamp

/-- The `hostname_asns` CTE: one row per `(hostname, asn)` group with its
`MIN(timestamp)` as `first_seen` and `MAX(timestamp)` as `last_seen`.
No time cutoff appears in this query. -/
def hostnameAsns (log : List Obs) : List HostAsn :=
  (hostAsnPairs log).map (fun p =>
    ⟨p.1, p.2, minTs (pairRows log p.1 p.2), maxTs (pairRows log p.1 p.2)⟩)

/-- The `migrations` CTE: the self-join of `hostname_asns` with itself on
equal hostname, `h2.first_seen > h1.last_seen`, `h1.asn != h2.asn` and
`(h1.asn = pivot OR h2.asn = pivot)`. -/
def cfMigrationsUnsorted (log : List Obs) (pivot : String) :
    List CfMigration :=
  (hostnameAsns log).flatMap (fun h1 =>
    (hostnameAsns log).filterMap (fun h2 =>
      if h1.hostname = h2.hostname ∧ h1.last_seen < h2.first_seen ∧
          h1.asn ≠ h2.asn ∧ (h1.asn = pivot ∨ h2.asn = pivot)
      then some ⟨h1.hostname, h1.asn, h2.asn, h1.first_seen, h1.last_seen,
        h2.first_seen, h2.last_seen⟩
      else none))

/-- `ORDER BY start_time DESC` on pivot-migration rows. -/
def sortCfMigrationsDesc (l : List CfMigration) : List CfMigration :=
  sortBy (fun a b => decide (b.start_time ≤ a.start_time)) l

/-- The `df_migrations` result set of `get_cloudflare_migrations`. -/
def getCloudflareMigrations (log : List Obs) (pivot : String) :
    List CfMigration :=
  sortCfMigrationsDesc (cfMigrationsUnsorted log pivot)

/-! ## Pivot filter (`create_flow_diagram` lines 107-109) -/

/-- `df_migrations[df_migrations['to_asn'] == CLOUDFLARE_ASN]`, with the
pivot value as a parameter (the script instantiates it with
`CLOUDFLARE_ASN`). -/
def toPivot (df : List CfMigration) (pivot : String) : List CfMigration :=
  df.filter (fun m => m.to_asn == pivot)

/-- `df_migrations[df_migrations['from_asn'] == CLOUDFLARE_ASN]`. -/
def fromPivot (df : List CfMigration) (pivot : String) : List CfMigration :=
  df.filter (fun m => m.from_asn == pivot)

/-- The complement of the two pivot filters: transitions touching the
pivot on neither side (the "neither" set of the pivot partition). -/
def neitherPivot (df : List CfMigration) (pivot : String) :
    List CfMigration :=
  df.filter (fun m => !(m.to_asn == pivot) && !(m.from_asn == pivot))

/-! ## Console output of `get_asn_migrations` and the `main` branch -/

/-- The alphabet of console messages `get_asn_migrations` can print. The
source has exactly four print sites: the cutoff line, the data-range debug
line, the "Found N migrations" line, and the sample table (shown only for
a non-empty result). `rowWarning` is the per-row warning the specification
describes for a usable row lacking an attribute; the source contains no
print site that produces it, so the constructor exists only to let its
absence be stated. -/
inductive LogMessage where
  | lookingAfter (cutoff : Nat) : LogMessage
  | dataRange (earliest latest uniqueHosts uniqueAsns total : Nat) : LogMessage
  | foundCount (n : Nat) : LogMessage
  | sampleShown : LogMessage
  | rowWarning (row : Obs) : LogMessage
deriving DecidableEq, Repr

/-- The debug query of `get_asn_migrations`: aggregates over rows with
`timestamp > cutoff` only (no ASN filter). An empty aggregate's `MIN`/`MAX`
(`NULL` in SQL) is modelled as `0`. -/
def debugRange (log : List Obs) (cutoff : Nat) : LogMessage :=
  let rows := log.filter (fun o => decide (cutoff < o.timestamp))
  LogMessage.dataRange (minTs rows) (maxTs rows)
    ((rows.map (fun o => o.hostname)).dedup.length)
    ((rows.filterMap (fun o => o.asn)).dedup.length)
    rows.length

/-- The sequence of console messages `get_asn_migrations` prints, in
order: the cutoff line, the data-range debug line, the found-count line,
and (when the result is non-empty) the sample table. No message is ever
printed for an individual skipped row. -/
def getAsnMessages (log : List Obs) (cutoff : Nat) : List LogMessage :=
  [LogMessage.lookingAfter cutoff, debugRange log cutoff,
    LogMessage.foundCount (getAsnMigrations log cutoff).length] ++
  (if (getAsnMigrations log cutoff).isEmpty then [] else
    [LogMessage.sampleShown])

/-- The outcome `main` reports for one time window. -/
inductive Report where
  | noData (hours : Nat) : Report
  | analysis (migs : List Migration) : Report
deriving DecidableEq, Repr

/-- The branch of `main` on one window: `if not migrations_df.empty`
analyse the result, `else` print "No migrations found in the last {hours}
hours." — the empty window is reported, never raised as an error. -/
def mainReport (migs : List Migration) (hours : Nat) : Report :=
  if migs.isEmpty then Report.noData hours else Report.analysis migs

/-- Decidable check that a list of naturals is in descending (non-strict)
order. -/
def isSortedDesc : List Nat → Bool
  | [] => true
  | [_] => true
  | a :: b :: t => decide (b ≤ a) && isSortedDesc (b :: t)

/-- The interval-pair view of a migration: the record the Transition
Detector would build from two adjacent occupancy intervals. -/
def migOfIntervalPair (h : String) (p : OccInterval × OccInterval) :
    Migration :=
  ⟨h, p.1.asn, p.2.asn, p.1.stop, p.2.start⟩

/-- Per-entity distinctness of timestamps: two rows of the same hostname
never share a timestamp (without it, `ORDER BY timestamp` inside one
partition is ambiguous and the SQL result is not a function of the
table). -/
def DistinctPerEntity (log : List Obs) : Prop :=
  log.Pairwise (fun a b => a.hostname = b.hostname → a.timestamp ≠ b.timestamp)

instance : DecidablePred DistinctPerEntity := fun log => by
  unfold DistinctPerEntity
  infer_instance

/-! ## Concrete observation logs used in the claim analyses -/

/-- One hostname seen on Cloudflare's ASN, then on `A`, then on `B`, at
three successive instants. -/
def logPivotChain : List Obs :=
  [⟨"h", some CLOUDFLARE_ASN, 1, true⟩, ⟨"h", some "A", 2, true⟩,
    ⟨"h", some "B", 3, true⟩]

/-- One hostname with attribute runs `A`, `B`, `A` (a return to a previous
attribute). -/
def logReturnChain : List Obs :=
  [⟨"h", some "A", 1, true⟩, ⟨"h", some "B", 2, true⟩,
    ⟨"h", some "A", 3, true⟩]

/-- Two hostnames whose transitions order differently by source-interval
start (`1` vs `2`) and by destination-interval start (`10` vs `3`). -/
def logTwoHosts : List Obs :=
  [⟨"x", some "A", 1, true⟩, ⟨"x", some "B", 10, true⟩,
    ⟨"y", some "C", 2, true⟩, ⟨"y", some "D", 3, true⟩]

/-- One hostname observed on the same ASN at `t = 1` and `t = 5`. -/
def logGap : List Obs :=
  [⟨"h", some "A", 1, true⟩, ⟨"h", some "A", 5, true⟩]

/-- One hostname with a usable (`success = 1`) row lacking an ASN between
two resolved rows. -/
def logNullAsn : List Obs :=
  [⟨"h", some "A", 1, true⟩, ⟨"h", none, 2, true⟩, ⟨"h", some "B", 3, true⟩]

/-- One hostname whose second observation has `success = 0`. -/
def logFailedRow : List Obs :=
  [⟨"h", some "A", 1, true⟩, ⟨"h", some "B", 2, false⟩]

/-- One hostname on one ASN with an earlier `success = 0` row. -/
def logFailedFirst : List Obs :=
  [⟨"h", some "A", 1, false⟩, ⟨"h", some "A", 2, true⟩]

/-- A single observation at `t = 1` (all observations at or before a
cutoff of `5`). -/
def logBeforeCutoff : List Obs := [⟨"h", some "A", 1, true⟩]

/-! ## Helper lemmas -/

theorem insertBy_perm {α : Type} (le : α → α → Bool) (a : α) :
    ∀ l : List α, (insertBy le a l).Perm (a :: l)
  | [] => List.Perm.refl _
  | b :: t => by
    unfold insertBy
    by_cases hab : le a b
    · rw [if_pos hab]
    · rw [if_neg hab]
      exact ((insertBy_perm le a t).cons b).trans (List.Perm.swap a b t)

theorem sortBy_perm {α : Type} (le : α → α → Bool) :
    ∀ l : List α, (sortBy le l).Perm l
  | [] => List.Perm.refl _
  | a :: t =>
    (insertBy_perm le a (sortBy le t)).trans ((sortBy_perm le t).cons a)

theorem mem_insertBy {α : Type} {le : α → α → Bool} {a x : α} {l : List α} :
    x ∈ insertBy le a l ↔ x = a ∨ x ∈ l := by
  rw [(insertBy_perm le a l).mem_iff, List.mem_cons]

theorem mem_sortBy {α : Type} {le : α → α → Bool} {x : α} {l : List α} :
    x ∈ sortBy le l ↔ x ∈ l :=
  (sortBy_perm le l).mem_iff

theorem sorted_insertBy {α : Type} (le : α → α → Bool)
    (trans : ∀ a b c, le a b = true → le b c = true → le a c = true)
    (total : ∀ a b, le a b = true ∨ le b a = true) (a : α) :
    ∀ {l : List α}, l.Pairwise (fun x y => le x y = true) →
      (insertBy le a l).Pairwise (fun x y => le x y = true)
  | [], _ => by simp [insertBy]
  | b :: t, hp => by
    rw [List.pairwise_cons] at hp
    unfold insertBy
    by_cases hab : le a b = true
    · rw [if_pos hab, List.pairwise_cons]
      refine ⟨?_, List.pairwise_cons.mpr hp⟩
      intro x hx
      rcases List.mem_cons.mp hx with rfl | hx
      · exact hab
      · exact trans a b x hab (hp.1 x hx)
    · rw [if_neg hab, List.pairwise_cons]
      have hba : le b a = true := (total a b).resolve_left hab
      refine ⟨?_, sorted_insertBy le trans total a hp.2⟩
      intro x hx
      rcases mem_insertBy.mp hx with rfl | hx
      · exact hba
      · exact hp.1 x hx

theorem sorted_sortBy {α : Type} (le : α → α → Bool)
    (trans : ∀ a b c, le a b = true → le b c = true → le a c = true)
    (total : ∀ a b, le a b = true ∨ le b a = true) :
    ∀ l : List α, (sortBy le l).Pairwise (fun x y => le x y = true)
  | [] => List.Pairwise.nil
  | a :: t =>
    sorted_insertBy le trans total a (sorted_sortBy le trans total t)

theorem consecutivePairs_cons₂ {α : Type} (x y : α) (t : List α) :
    consecutivePairs (x :: y :: t) = (x, y) :: consecutivePairs (y :: t) := rfl

theorem consecutivePairs_pair_nil {α : Type} (x : α) :
    consecutivePairs [x] = [] := rfl

theorem runsFrom_head (h a : String) (s e : Nat) (rest : List Obs) :
    ∃ e2 tl, runsFrom h a s e rest = ⟨h, a, s, e2⟩ :: tl := by
  induction rest generalizing e with
  | nil => exact ⟨e, [], rfl⟩
  | cons o r ih =>
    by_cases hco : o.asn.getD "" = a
    · simpa [runsFrom, hco] using ih o.timestamp
    · exact ⟨e, runsFrom h (o.asn.getD "") o.timestamp o.timestamp r,
        by simp [runsFrom, hco]⟩

theorem trans_runs_eq (h : String) (rest : List Obs) :
    ∀ (o : Obs) (s : Nat),
    (consecutivePairs (runsFrom h (o.asn.getD "") s o.timestamp rest)).map
        (migOfIntervalPair h)
      = transOfRows h (o :: rest) := by
  induction rest with
  | nil =>
    intro o s
    simp [runsFrom, consecutivePairs, transOfRows]
  | cons o2 r ih =>
    intro o s
    by_cases hco : o2.asn.getD "" = o.asn.getD ""
    · have lhs :
          runsFrom h (o.asn.getD "") s o.timestamp (o2 :: r)
            = runsFrom h (o2.asn.getD "") s o2.timestamp r := by
        simp [runsFrom, hco]
      rw [lhs, ih o2 s]
      simp [transOfRows, consecutivePairs_cons₂, List.filterMap_cons, hco]
    · have lhs :
          runsFrom h (o.asn.getD "") s o.timestamp (o2 :: r)
            = ⟨h, o.asn.getD "", s, o.timestamp⟩ ::
                runsFrom h (o2.asn.getD "") o2.timestamp o2.timestamp r := by
        simp [runsFrom, hco]
      obtain ⟨e2, tl, htl⟩ :=
        runsFrom_head h (o2.asn.getD "") o2.timestamp o2.timestamp r
      have hco' : ¬o.asn.getD "" = o2.asn.getD "" := fun hh => hco hh.symm
      rw [lhs, htl, consecutivePairs_cons₂, List.map_cons, ← htl, ih o2 o2.timestamp]
      simp [transOfRows, consecutivePairs_cons₂, List.filterMap_cons, hco',
        migOfIntervalPair]

theorem transOfRows_eq_intervalPairs (h : String) (l : List Obs) :
    transOfRows h l
      = (consecutivePairs (intervalsOfRows h l)).map (migOfIntervalPair h) := by
  cases l with
  | nil => rfl
  | cons o rest => exact (trans_runs_eq h rest o o.timestamp).symm

theorem length_consecutivePairs {α : Type} (l : List α) :
    (consecutivePairs l).length = l.length - 1 := by
  simp only [consecutivePairs, List.length_zip, List.length_tail]
  omega

theorem length_transOfRows (h : String) (l : List Obs) :
    (transOfRows h l).length = (intervalsOfRows h l).length - 1 := by
  rw [transOfRows_eq_intervalPairs, List.length_map, length_consecutivePairs]

theorem pairwise_isSortedDesc :
    ∀ {l : List Nat}, l.Pairwise (fun a b => b ≤ a) → isSortedDesc l = true
  | [], _ => rfl
  | [_], _ => rfl
  | a :: b :: t, hp => by
    rw [List.pairwise_cons] at hp
    have hba : b ≤ a := hp.1 b (List.mem_cons_self b t)
    simp only [isSortedDesc, Bool.and_eq_true, decide_eq_true_eq]
    exact ⟨hba, pairwise_isSortedDesc hp.2⟩

theorem sortMigrationsDesc_sorted (l : List Migration) :
    (sortMigrationsDesc l).Pairwise
      (fun a b => b.start_time ≤ a.start_time) := by
  have hs := sorted_sortBy
    (fun a b : Migration => decide (b.start_time ≤ a.start_time))
    (fun a b c hab hbc => by
      simp only [decide_eq_true_eq] at hab hbc ⊢; omega)
    (fun a b => by
      simp only [decide_eq_true_eq]
      exact Nat.le_total b.start_time a.start_time) l
  exact hs.imp (fun hh => by simpa using hh)

theorem sortCfMigrationsDesc_sorted (l : List CfMigration) :
    (sortCfMigrationsDesc l).Pairwise
      (fun a b => b.start_time ≤ a.start_time) := by
  have hs := sorted_sortBy
    (fun a b : CfMigration => decide (b.start_time ≤ a.start_time))
    (fun a b c hab hbc => by
      simp only [decide_eq_true_eq] at hab hbc ⊢; omega)
    (fun a b => by
      simp only [decide_eq_true_eq]
      exact Nat.le_total b.start_time a.start_time) l
  exact hs.imp (fun hh => by simpa using hh)

theorem filter_three_perm {α : Type} (p q r : α → Bool) :
    ∀ l : List α,
      (∀ a ∈ l,
        (p a = true ∧ q a = false ∧ r a = false) ∨
        (p a = false ∧ q a = true ∧ r a = false) ∨
        (p a = false ∧ q a = false ∧ r a = true)) →
      (l.filter p ++ l.filter q ++ l.filter r).Perm l
  | [], _ => by simp
  | a :: l, hone => by
    have ih := filter_three_perm p q r l
      (fun x hx => hone x (List.mem_cons_of_mem a hx))
    have ihA : (l.filter p ++ (l.filter q ++ l.filter r)).Perm l := by
      simpa [List.append_assoc] using ih
    rcases hone a (List.mem_cons_self a l) with ⟨hp, hq, hr⟩ | ⟨hp, hq, hr⟩ |
      ⟨hp, hq, hr⟩
    · rw [List.filter_cons_of_pos (by simp [hp]),
        List.filter_cons_of_neg (by simp [hq]),
        List.filter_cons_of_neg (by simp [hr])]
      exact ih.cons a
    · rw [List.filter_cons_of_neg (by simp [hp]),
        List.filter_cons_of_pos (by simp [hq]),
        List.filter_cons_of_neg (by simp [hr])]
      have e1 : l.filter p ++ (a :: l.filter q) ++ l.filter r
          = l.filter p ++ a :: (l.filter q ++ l.filter r) := by simp
      rw [e1]
      exact List.perm_middle.trans (ihA.cons a)
    · rw [List.filter_cons_of_neg (by simp [hp]),
        List.filter_cons_of_neg (by simp [hq]),
        List.filter_cons_of_pos (by simp [hr])]
      have e1 : l.filter p ++ l.filter q ++ (a :: l.filter r)
          = (l.filter p ++ l.filter q) ++ a :: l.filter r := by simp
      rw [e1]
      refine List.perm_middle.trans ?_
      refine List.Perm.cons a ?_
      simpa [List.append_assoc] using ih

theorem mem_getCloudflareMigrations {log : List Obs} {pivot : String}
    {m : CfMigration} :
    m ∈ getCloudflareMigrations log pivot ↔
      m ∈ cfMigrationsUnsorted log pivot :=
  mem_sortBy

theorem cfMigrations_from_ne_to {log : List Obs} {pivot : String}
    {m : CfMigration} (hm : m ∈ getCloudflareMigrations log pivot) :
    m.from_asn ≠ m.to_asn ∧ (m.from_asn = pivot ∨ m.to_asn = pivot) := by
  rw [mem_getCloudflareMigrations] at hm
  unfold cfMigrationsUnsorted at hm
  rw [List.mem_flatMap] at hm
  obtain ⟨h1, _, hm⟩ := hm
  rw [List.mem_filterMap] at hm
  obtain ⟨h2, _, hsome⟩ := hm
  split at hsome
  · next hcond =>
    cases hsome
    exact ⟨hcond.2.2.1, hcond.2.2.2⟩
  · exact absurd hsome (by simp)

theorem windowed_filter_eq (log : List Obs) {c1 c2 : Nat} (h12 : c1 ≤ c2) :
    windowedRows log c2
      = (windowedRows log c1).filter (fun o => decide (c2 < o.timestamp)) := by
  unfold windowedRows
  rw [List.filter_filter]
  refine (List.filter_congr ?_).symm
  intro o _
  by_cases h2 : c2 < o.timestamp
  · have h1 : c1 < o.timestamp := lt_of_le_of_lt h12 h2
    simp [h1, h2]
  · simp [h2]

theorem entityRowsUnsorted_filter_eq (log : List Obs) {c1 c2 : Nat}
    (h : String) (h12 : c1 ≤ c2) :
    (windowedRows log c2).filter (fun o => o.hostname == h)
      = ((windowedRows log c1).filter (fun o => o.hostname == h)).filter
          (fun o => decide (c2 < o.timestamp)) := by
  rw [windowed_filter_eq log h12, List.filter_filter, List.filter_filter]
  exact List.filter_congr (fun o _ => Bool.and_comm _ _)

theorem entityRows_sorted (log : List Obs) (c : Nat) (h : String) :
    (entityRows log c h).Pairwise
      (fun a b => a.timestamp ≤ b.timestamp) := by
  have hs := sorted_sortBy
    (fun a b : Obs => decide (a.timestamp ≤ b.timestamp))
    (fun a b c hab hbc => by
      simp only [decide_eq_true_eq] at hab hbc ⊢; omega)
    (fun a b => by
      simp only [decide_eq_true_eq]
      exact Nat.le_total a.timestamp b.timestamp)
    ((windowedRows log c).filter (fun o => o.hostname == h))
  exact hs.imp (fun hh => by simpa using hh)

theorem entityRows_strictSorted (log : List Obs) (c : Nat) (h : String)
    (hd : DistinctPerEntity log) :
    (entityRows log c h).Pairwise
      (fun a b => a.timestamp < b.timestamp) := by
  have h0 : ((windowedRows log c).filter (fun o => o.hostname == h)).Pairwise
      (fun a b => a.hostname = b.hostname → a.timestamp ≠ b.timestamp) :=
    (hd.filter _).filter _
  have hne0 : ((windowedRows log c).filter (fun o => o.hostname == h)).Pairwise
      (fun a b => a.timestamp ≠ b.timestamp) := by
    refine h0.imp_of_mem ?_
    intro a b ha hb hr
    have hah : a.hostname = h := by
      have := (List.mem_filter.mp ha).2
      simpa using this
    have hbh : b.hostname = h := by
      have := (List.mem_filter.mp hb).2
      simpa using this
    exact hr (hah.trans hbh.symm)
  have hne : (entityRows log c h).Pairwise
      (fun a b => a.timestamp ≠ b.timestamp) := by
    refine (List.Perm.pairwise_iff (fun hxy => hxy.symm) ?_).mpr hne0
    exact sortBy_perm _ _
  exact (entityRows_sorted log c h).and hne |>.imp
    (fun hab => lt_of_le_of_ne hab.1 hab.2)

theorem sorted_filter_split (c2 : Nat) :
    ∀ l : List Obs, l.Pairwise (fun a b => a.timestamp ≤ b.timestamp) →
      l = l.filter (fun o => !(decide (c2 < o.timestamp))) ++
            l.filter (fun o => decide (c2 < o.timestamp))
  | [], _ => rfl
  | o :: t, hp => by
    rw [List.pairwise_cons] at hp
    by_cases hc : c2 < o.timestamp
    · have hall : ∀ x ∈ t, c2 < x.timestamp :=
        fun x hx => lt_of_lt_of_le hc (hp.1 x hx)
      rw [List.filter_cons_of_neg (by simp [hc]),
        List.filter_cons_of_pos (by simp [hc]),
        List.filter_eq_nil_iff.mpr (fun x hx => by simp [hall x hx]),
        List.filter_eq_self.mpr (fun x hx => by simp [hall x hx])]
      rfl
    · rw [List.filter_cons_of_pos (by simp [hc]),
        List.filter_cons_of_neg (by simp [hc]), List.cons_append]
      exact congrArg (o :: ·) (sorted_filter_split c2 t hp.2)

theorem entityRows_filter_eq (log : List Obs) {c1 c2 : Nat} (h : String)
    (h12 : c1 ≤ c2) (hd : DistinctPerEntity log) :
    (entityRows log c1 h).filter (fun o => decide (c2 < o.timestamp))
      = entityRows log c2 h := by
  haveI : IsAntisymm Obs (fun a b => a.timestamp < b.timestamp) :=
    ⟨fun a b hab hba => absurd (hab.trans hba) (lt_irrefl _)⟩
  have p1 : (entityRows log c1 h).filter
      (fun o => decide (c2 < o.timestamp)) |>.Perm
      (((windowedRows log c1).filter (fun o => o.hostname == h)).filter
        (fun o => decide (c2 < o.timestamp))) :=
    (sortBy_perm _ _).filter _
  have p2 := (entityRowsUnsorted_filter_eq log h h12).symm
  have p3 : ((windowedRows log c2).filter
      (fun o => o.hostname == h)).Perm (entityRows log c2 h) :=
    (sortBy_perm _ _).symm
  have hs1 : ((entityRows log c1 h).filter
      (fun o => decide (c2 < o.timestamp))).Pairwise
      (fun a b => a.timestamp < b.timestamp) :=
    (entityRows_strictSorted log c1 h hd).filter _
  have hs2 : (entityRows log c2 h).Pairwise
      (fun a b => a.timestamp < b.timestamp) :=
    entityRows_strictSorted log c2 h hd
  exact List.eq_of_perm_of_sorted (p1.trans (p2 ▸ p3)) hs1 hs2

theorem entityRows_split (log : List Obs) {c1 c2 : Nat} (h : String)
    (h12 : c1 ≤ c2) (hd : DistinctPerEntity log) :
    entityRows log c1 h
      = (entityRows log c1 h).filter (fun o => !(decide (c2 < o.timestamp)))
          ++ entityRows log c2 h := by
  rw [← entityRows_filter_eq log h h12 hd]
  exact sorted_filter_split c2 _ (entityRows_sorted log c1 h)

theorem mem_consecutivePairs_append {α : Type} (A B : List α) {x : α × α}
    (hx : x ∈ consecutivePairs B) : x ∈ consecutivePairs (A ++ B) := by
  induction A with
  | nil => simpa using hx
  | cons a A ih =>
    rw [List.cons_append]
    cases hAB : A ++ B with
    | nil => rw [hAB] at ih; exact absurd ih (by simp [consecutivePairs])
    | cons y t =>
      rw [hAB] at ih
      rw [consecutivePairs_cons₂]
      exact List.mem_cons_of_mem _ ih

theorem transOfRows_mem_append (h : String) (A B : List Obs) {m : Migration}
    (hm : m ∈ transOfRows h B) : m ∈ transOfRows h (A ++ B) := by
  unfold transOfRows at hm ⊢
  rw [List.mem_filterMap] at hm ⊢
  obtain ⟨p, hp, hfp⟩ := hm
  exact ⟨p, mem_consecutivePairs_append A B hp, hfp⟩

theorem entityTransitions_mono (log : List Obs) {c1 c2 : Nat} (h : String)
    (h12 : c1 ≤ c2) (hd : DistinctPerEntity log) {m : Migration}
    (hm : m ∈ entityTransitions log c2 h) : m ∈ entityTransitions log c1 h := by
  unfold entityTransitions at hm ⊢
  rw [entityRows_split log h h12 hd]
  exact transOfRows_mem_append h _ _ hm

theorem allHostnames_mono (log : List Obs) {c1 c2 : Nat} (h12 : c1 ≤ c2)
    {h : String} (hh : h ∈ allHostnames log c2) : h ∈ allHostnames log c1 := by
  unfold allHostnames at hh ⊢
  rw [List.mem_dedup] at hh ⊢
  rw [List.mem_map] at hh ⊢
  obtain ⟨o, ho, rfl⟩ := hh
  rw [windowed_filter_eq log h12] at ho
  exact ⟨o, List.mem_of_mem_filter ho, rfl⟩

theorem asnTransitionsAll_mono (log : List Obs) {c1 c2 : Nat} (h12 : c1 ≤ c2)
    (hd : DistinctPerEntity log) {m : Migration}
    (hm : m ∈ asnTransitionsAll log c2) : m ∈ asnTransitionsAll log c1 := by
  unfold asnTransitionsAll at hm ⊢
  rw [List.mem_flatMap] at hm ⊢
  obtain ⟨h, hh, hm⟩ := hm
  exact ⟨h, allHostnames_mono log h12 hh, entityTransitions_mono log h h12 hd hm⟩

theorem foldl_min_le_acc :
    ∀ (l : List Obs) (acc : Nat),
      l.foldl (fun m x => min m x.timestamp) acc ≤ acc
  | [], _ => le_refl _
  | o :: r, acc =>
    le_trans (foldl_min_le_acc r (min acc o.timestamp)) (min_le_left _ _)

theorem foldl_min_le_mem :
    ∀ (l : List Obs) (acc : Nat), ∀ x ∈ l,
      l.foldl (fun m y => min m y.timestamp) acc ≤ x.timestamp := by
  intro l
  induction l with
  | nil => intro acc x hx; exact absurd hx (List.not_mem_nil x)
  | cons o r ih =>
    intro acc x hx
    rcases List.mem_cons.mp hx with rfl | hx
    · exact le_trans (foldl_min_le_acc r _) (min_le_right _ _)
    · exact ih _ x hx

theorem foldl_min_attained :
    ∀ (l : List Obs) (acc : Nat),
      l.foldl (fun m x => min m x.timestamp) acc = acc ∨
        ∃ x ∈ l, l.foldl (fun m y => min m y.timestamp) acc = x.timestamp := by
  intro l
  induction l with
  | nil => intro acc; exact Or.inl rfl
  | cons o r ih =>
    intro acc
    rcases ih (min acc o.timestamp) with hacc | ⟨x, hx, hfx⟩
    · rcases min_cases acc o.timestamp with ⟨hmin, _⟩ | ⟨hmin, _⟩
      · exact Or.inl (by simpa [List.foldl_cons, hmin] using hacc)
      · refine Or.inr ⟨o, List.mem_cons_self o r, ?_⟩
        simpa [List.foldl_cons, hmin] using hacc
    · exact Or.inr ⟨x, List.mem_cons_of_mem o hx, by simpa [List.foldl_cons] using hfx⟩

theorem foldl_max_acc_le :
    ∀ (l : List Obs) (acc : Nat),
      acc ≤ l.foldl (fun m x => max m x.timestamp) acc
  | [], _ => le_refl _
  | o :: r, acc =>
    le_trans (le_max_left _ _) (foldl_max_acc_le r (max acc o.timestamp))

theorem foldl_max_mem_le :
    ∀ (l : List Obs) (acc : Nat), ∀ x ∈ l,
      x.timestamp ≤ l.foldl (fun m y => max m y.timestamp) acc := by
  intro l
  induction l with
  | nil => intro acc x hx; exact absurd hx (List.not_mem_nil x)
  | cons o r ih =>
    intro acc x hx
    rcases List.mem_cons.mp hx with rfl | hx
    · exact le_trans (le_max_right _ _) (foldl_max_acc_le r _)
    · exact ih _ x hx

theorem foldl_max_attained :
    ∀ (l : List Obs) (acc : Nat),
      l.foldl (fun m x => max m x.timestamp) acc = acc ∨
        ∃ x ∈ l, l.foldl (fun m y => max m y.timestamp) acc = x.timestamp := by
  intro l
  induction l with
  | nil => intro acc; exact Or.inl rfl
  | cons o r ih =>
    intro acc
    rcases ih (max acc o.timestamp) with hacc | ⟨x, hx, hfx⟩
    · rcases max_cases acc o.timestamp with ⟨hmax, _⟩ | ⟨hmax, _⟩
      · exact Or.inl (by simpa [List.foldl_cons, hmax] using hacc)
      · refine Or.inr ⟨o, List.mem_cons_self o r, ?_⟩
        simpa [List.foldl_cons, hmax] using hacc
    · exact Or.inr ⟨x, List.mem_cons_of_mem o hx, by simpa [List.foldl_cons] using hfx⟩

theorem minTs_le {l : List Obs} {o : Obs} (ho : o ∈ l) :
    minTs l ≤ o.timestamp := by
  cases l with
  | nil => exact absurd ho (List.not_mem_nil o)
  | cons o0 r =>
    rcases List.mem_cons.mp ho with rfl | ho
    · exact foldl_min_le_acc r o.timestamp
    · exact foldl_min_le_mem r o0.timestamp o ho

theorem le_maxTs {l : List Obs} {o : Obs} (ho : o ∈ l) :
    o.timestamp ≤ maxTs l := by
  cases l with
  | nil => exact absurd ho (List.not_mem_nil o)
  | cons o0 r =>
    rcases List.mem_cons.mp ho with rfl | ho
    · exact foldl_max_acc_le r o.timestamp
    · exact foldl_max_mem_le r o0.timestamp o ho

theorem minTs_attained {l : List Obs} (hl : l ≠ []) :
    ∃ o ∈ l, minTs l = o.timestamp := by
  cases l with
  | nil => exact absurd rfl hl
  | cons o0 r =>
    rcases foldl_min_attained r o0.timestamp with hacc | ⟨x, hx, hfx⟩
    · exact ⟨o0, List.mem_cons_self o0 r, hacc⟩
    · exact ⟨x, List.mem_cons_of_mem o0 hx, hfx⟩

theorem maxTs_attained {l : List Obs} (hl : l ≠ []) :
    ∃ o ∈ l, maxTs l = o.timestamp := by
  cases l with
  | nil => exact absurd rfl hl
  | cons o0 r =>
    rcases foldl_max_attained r o0.timestamp with hacc | ⟨x, hx, hfx⟩
    · exact ⟨o0, List.mem_cons_self o0 r, hacc⟩
    · exact ⟨x, List.mem_cons_of_mem o0 hx, hfx⟩

theorem mem_pairRows {log : List Obs} {h a : String} {o : Obs} :
    o ∈ pairRows log h a ↔
      o ∈ log ∧ o.success = true ∧ o.hostname = h ∧ o.asn = some a := by
  unfold pairRows usableRows
  rw [List.mem_filter, List.mem_filter]
  constructor
  · rintro ⟨⟨hlog, hu⟩, hk⟩
    rw [Bool.and_eq_true] at hu hk
    have hsucc : o.success = true := hu.1
    have hsome : o.asn.isSome = true := hu.2
    have hh : o.hostname = h := by simpa using hk.1
    obtain ⟨a0, ha0⟩ := Option.isSome_iff_exists.mp hsome
    have hga : o.asn.getD "" = a := by simpa using hk.2
    rw [ha0] at hga ⊢
    simp only [Option.getD_some] at hga
    exact ⟨hlog, hsucc, hh, by rw [hga]⟩
  · rintro ⟨hlog, hsucc, hh, ha⟩
    refine ⟨⟨hlog, ?_⟩, ?_⟩
    · simp [hsucc, ha]
    · simp [hh, ha]

theorem mem_hostnameAsns {log : List Obs} {x : HostAsn}
    (hx : x ∈ hostnameAsns log) :
    pairRows log x.hostname x.asn ≠ [] ∧
      x.first_seen = minTs (pairRows log x.hostname x.asn) ∧
      x.last_seen = maxTs (pairRows log x.hostname x.asn) := by
  unfold hostnameAsns at hx
  rw [List.mem_map] at hx
  obtain ⟨p, hp, rfl⟩ := hx
  refine ⟨?_, rfl, rfl⟩
  unfold hostAsnPairs at hp
  rw [List.mem_dedup, List.mem_map] at hp
  obtain ⟨o, ho, rfl⟩ := hp
  have : o ∈ pairRows log o.hostname (o.asn.getD "") := by
    unfold pairRows
    rw [List.mem_filter]
    exact ⟨ho, by simp⟩
  exact List.ne_nil_of_mem this

/-! ## Claims -/

/-- C1 (amended): in the windowed detector the transitions of one entity
are exactly the consecutive pairs of that entity's occupancy intervals
(each transition joins an interval to the temporally next one), so their
count is `len(intervals) - 1` — zero for 0 or 1 interval. The pivot
detector does not satisfy the claim (see the counterexample): its
self-join also emits non-adjacent pairs. -/
theorem claim1_windowed_adjacent_transitions (log : List Obs) (cutoff : Nat)
    (h : String) :
    entityTransitions log cutoff h
      = (consecutivePairs (entityIntervals log cutoff h)).map
          (migOfIntervalPair h) ∧
    (entityTransitions log cutoff h).length
      = (entityIntervals log cutoff h).length - 1 :=
  ⟨transOfRows_eq_intervalPairs h _, length_transOfRows h _⟩

/-- C1 counterexample: for observations Cloudflare at `t=1`, `A` at `t=2`,
`B` at `t=3` the entity has three occupancy intervals, yet the pivot
detector emits a transition from the Cloudflare interval `[1,1]` straight
to the non-adjacent interval `[3,3]` (the interval `[2,2]` of `A` lies
strictly between), contradicting "a transition is emitted only between
temporally consecutive interval pairs, never between non-adjacent
ones". -/
theorem claim1_nonadjacent_emission_counterexample :
    getCloudflareMigrations logPivotChain CLOUDFLARE_ASN =
      [⟨"h", CLOUDFLARE_ASN, "A", 1, 1, 2, 2⟩,
        ⟨"h", CLOUDFLARE_ASN, "B", 1, 1, 3, 3⟩] ∧
    entityIntervals logPivotChain 0 "h" =
      [⟨"h", CLOUDFLARE_ASN, 1, 1⟩, ⟨"h", "A", 2, 2⟩, ⟨"h", "B", 3, 3⟩] :=
  ⟨rfl, rfl⟩

/-- C2 (amended): in the windowed detector, for every entity whose
occupancy-interval sequence is exactly `A`, `B`, `A` — the same attribute
returning after a run of a different attribute, i.e. two separate
`A`-intervals — the detected transitions are exactly the two adjacent
pairs `A→B` and `B→A`, and these are distinct transition records: the
return to a previous attribute is not collapsed. In the pivot detector
the claim fails (see the counterexample): grouping by `(hostname, asn)`
collapses both `A` runs into one span. -/
theorem claim2_windowed_return_distinct (log : List Obs) (c : Nat)
    (h : String) (i1 i2 i3 : OccInterval)
    (hints : entityIntervals log c h = [i1, i2, i3])
    (hret : i1.asn = i3.asn) (hdiff : i1.asn ≠ i2.asn) :
    entityTransitions log c h =
      [⟨h, i1.asn, i2.asn, i1.stop, i2.start⟩,
        ⟨h, i2.asn, i1.asn, i2.stop, i3.start⟩] ∧
    (⟨h, i1.asn, i2.asn, i1.stop, i2.start⟩ : Migration) ≠
      ⟨h, i2.asn, i1.asn, i2.stop, i3.start⟩ := by
  constructor
  · show transOfRows h (entityRows log c h) = _
    rw [transOfRows_eq_intervalPairs]
    have hints2 : intervalsOfRows h (entityRows log c h) = [i1, i2, i3] :=
      hints
    rw [hints2]
    show ([⟨h, i1.asn, i2.asn, i1.stop, i2.start⟩,
      ⟨h, i2.asn, i3.asn, i2.stop, i3.start⟩] : List Migration) = _
    rw [← hret]
  · intro heq
    exact hdiff (congrArg Migration.from_asn heq)

/-- C2 witness: the return-chain log `A@1, B@2, A@3` with cutoff `0` has
interval sequence `A[1,1]`, `B[2,2]`, `A[3,3]`; by the theorem its
windowed transitions are exactly `A→B` then `B→A`. -/
theorem claim2_windowed_return_distinct_witness :
    entityTransitions logReturnChain 0 "h" =
      [⟨"h", "A", "B", 1, 2⟩, ⟨"h", "B", "A", 2, 3⟩] :=
  (claim2_windowed_return_distinct logReturnChain 0 "h"
    ⟨"h", "A", 1, 1⟩ ⟨"h", "B", 2, 2⟩ ⟨"h", "A", 3, 3⟩
    rfl rfl (by decide)).1

/-- C2 counterexample: for observations `A` at `t=1`, `B` at `t=2`, `A`
at `t=3` the pivot pipeline builds a single `A`-group spanning `[1,3]`
(not two separate `A`-intervals) and, because the `B`-group `[2,2]` lies
inside that span, reports no transitions at all for any pivot — not the
two transitions the claim requires. -/
theorem claim2_return_collapsed_counterexample :
    hostnameAsns logReturnChain = [⟨"h", "B", 2, 2⟩, ⟨"h", "A", 1, 3⟩] ∧
    getCloudflareMigrations logReturnChain "A" = [] ∧
    getCloudflareMigrations logReturnChain "B" = [] :=
  ⟨rfl, rfl, rfl⟩

/-- C3 (amended): both detectors report transitions sorted by the
earlier (source) interval's start time in descending order
(`ORDER BY start_time DESC`), not by the later interval's start. -/
theorem claim3_sorted_by_source_start (log : List Obs) (c : Nat)
    (p : String) :
    isSortedDesc ((getAsnMigrations log c).map
      (fun m => m.start_time)) = true ∧
    isSortedDesc ((getCloudflareMigrations log p).map
      (fun m => m.start_time)) = true := by
  constructor
  · have h1 := sortMigrationsDesc_sorted (asnTransitionsAll log c)
    have h2 : (getAsnMigrations log c).Pairwise
        (fun a b => b.start_time ≤ a.start_time) :=
      List.Pairwise.sublist (List.take_sublist 50 _) h1
    exact pairwise_isSortedDesc (List.pairwise_map.mpr h2)
  · have h1 := sortCfMigrationsDesc_sorted (cfMigrationsUnsorted log p)
    exact pairwise_isSortedDesc (List.pairwise_map.mpr h1)

/-- C3 counterexample: with hostname `x` migrating at source start `1`
toward destination start `10`, and hostname `y` at source start `2`
toward destination start `3`, the result lists `y` before `x`; the
destination (later interval) start times then read `[3, 10]`, which is
not descending, refuting "sorted by the later interval's start time in
descending order". -/
theorem claim3_destination_order_counterexample :
    getAsnMigrations logTwoHosts 0 =
      [⟨"y", "C", "D", 2, 3⟩, ⟨"x", "A", "B", 1, 10⟩] ∧
    isSortedDesc ((getAsnMigrations logTwoHosts 0).map
      (fun m => m.end_time)) = false :=
  ⟨rfl, rfl⟩

/-- C4: for every pivot value `p` and every transition set produced by
the pivot detector, `toPivot` holds exactly the transitions with
`to_asn = p`, `fromPivot` exactly those with `from_asn = p`, a transition
with both sides equal to `p` never appears (the detector guarantees
`from_asn ≠ to_asn`), a transition touching `p` on neither side is in
neither filtered set, and the three filters partition the unfiltered set
with no duplicates. -/
theorem claim4_pivot_filter_partition (log : List Obs) (q p : String) :
    (∀ m : CfMigration, m ∈ toPivot (getCloudflareMigrations log q) p ↔
        m ∈ getCloudflareMigrations log q ∧ m.to_asn = p) ∧
    (∀ m : CfMigration, m ∈ fromPivot (getCloudflareMigrations log q) p ↔
        m ∈ getCloudflareMigrations log q ∧ m.from_asn = p) ∧
    (∀ m ∈ getCloudflareMigrations log q, m.from_asn ≠ m.to_asn) ∧
    (∀ m ∈ getCloudflareMigrations log q,
      ¬(m.from_asn = p ∧ m.to_asn = p)) ∧
    (∀ m ∈ getCloudflareMigrations log q, m.from_asn ≠ p → m.to_asn ≠ p →
        m ∉ toPivot (getCloudflareMigrations log q) p ∧
        m ∉ fromPivot (getCloudflareMigrations log q) p) ∧
    (toPivot (getCloudflareMigrations log q) p ++
        fromPivot (getCloudflareMigrations log q) p ++
        neitherPivot (getCloudflareMigrations log q) p).Perm
      (getCloudflareMigrations log q) := by
  refine ⟨?_, ?_, ?_, ?_, ?_, ?_⟩
  · intro m
    unfold toPivot
    rw [List.mem_filter]
    simp only [beq_iff_eq]
  · intro m
    unfold fromPivot
    rw [List.mem_filter]
    simp only [beq_iff_eq]
  · intro m hm
    exact (cfMigrations_from_ne_to hm).1
  · intro m hm hpp
    exact (cfMigrations_from_ne_to hm).1 (hpp.1.trans hpp.2.symm)
  · intro m hm hf ht
    constructor
    · intro hmem
      unfold toPivot at hmem
      rw [List.mem_filter] at hmem
      exact ht (by simpa using hmem.2)
    · intro hmem
      unfold fromPivot at hmem
      rw [List.mem_filter] at hmem
      exact hf (by simpa using hmem.2)
  · refine filter_three_perm _ _ _ (getCloudflareMigrations log q) ?_
    intro m hm
    have hne := (cfMigrations_from_ne_to hm).1
    by_cases ht : m.to_asn = p
    · refine Or.inl ⟨by simp [ht], ?_, ?_⟩
      · have hf : ¬m.from_asn = p := fun hf => hne (hf.trans ht.symm)
        simp [hf]
      · simp [ht]
    · by_cases hf : m.from_asn = p
      · exact Or.inr (Or.inl ⟨by simp [ht], by simp [hf], by simp [ht, hf]⟩)
      · exact Or.inr (Or.inr ⟨by simp [ht], by simp [hf], by simp [ht, hf]⟩)

/-- C4 witness: in the pivot-chain log the emitted transition from
Cloudflare to `A` has distinct sides, by the partition theorem. -/
theorem claim4_pivot_filter_partition_witness :
    (⟨"h", CLOUDFLARE_ASN, "A", 1, 1, 2, 2⟩ : CfMigration).from_asn ≠
      (⟨"h", CLOUDFLARE_ASN, "A", 1, 1, 2, 2⟩ : CfMigration).to_asn :=
  (claim4_pivot_filter_partition logPivotChain CLOUDFLARE_ASN
    CLOUDFLARE_ASN).2.2.1 ⟨"h", CLOUDFLARE_ASN, "A", 1, 1, 2, 2⟩ (by decide)

/-- C5 (amended): widening the window (moving the cutoff from `c2` back
to `c1 ≤ c2`, same end of time) only adds windowed observations and only
adds detected transitions (the `changes` rows before the 50-row
truncation), provided timestamps are distinct within each entity.
Occupancy intervals are not monotone in this sense — see the
counterexample. -/
theorem claim5_window_monotonicity (log : List Obs) (c1 c2 : Nat)
    (h12 : c1 ≤ c2) (hd : DistinctPerEntity log) :
    (∀ o ∈ windowedRows log c2, o ∈ windowedRows log c1) ∧
    (∀ m ∈ asnTransitionsAll log c2, m ∈ asnTransitionsAll log c1) := by
  constructor
  · intro o ho
    rw [windowed_filter_eq log h12] at ho
    exact List.mem_of_mem_filter ho
  · intro m hm
    exact asnTransitionsAll_mono log h12 hd hm

/-- C5 witness: the transition `B→A` detected in the `[cutoff=1]` window
of the return-chain log is still detected with the wider `[cutoff=0]`
window, by the monotonicity theorem. -/
theorem claim5_window_monotonicity_witness :
    (⟨"h", "B", "A", 2, 3⟩ : Migration) ∈ asnTransitionsAll logReturnChain 0 :=
  (claim5_window_monotonicity logReturnChain 0 1 (by decide) (by decide)).2
    ⟨"h", "B", "A", 2, 3⟩ (by decide)

/-- C5 counterexample: with one hostname observed on `A` at `t=1` and
`t=5`, the window with cutoff `3` yields the interval `[5,5]`, but the
wider window with cutoff `0` yields `[1,5]` instead: the narrower
window's interval is not an element of the wider window's interval set,
refuting "intervals produced with cutoff c2 are a subset of those
produced with cutoff c1". -/
theorem claim5_interval_not_subset_counterexample :
    entityIntervals logGap 3 "h" = [⟨"h", "A", 5, 5⟩] ∧
    entityIntervals logGap 0 "h" = [⟨"h", "A", 1, 5⟩] ∧
    (⟨"h", "A", 5, 5⟩ : OccInterval) ∉ entityIntervals logGap 0 "h" :=
  ⟨rfl, rfl, by decide⟩

theorem windowedRows_filter_isSome (log : List Obs) (c : Nat) :
    windowedRows (log.filter (fun o => o.asn.isSome)) c
      = windowedRows log c := by
  unfold windowedRows
  rw [List.filter_filter]
  refine List.filter_congr ?_
  intro o _
  cases hs : o.asn.isSome <;> simp [hs]

theorem usableRows_filter_success (log : List Obs) :
    usableRows (log.filter (fun o => o.success)) = usableRows log := by
  unfold usableRows
  rw [List.filter_filter]
  refine List.filter_congr ?_
  intro o _
  cases hs : o.success <;> simp [hs]

/-- C6 (amended): a row marked usable but lacking an attribute is
silently excluded by the query filter `asn IS NOT NULL` — the result is
exactly the result on the log with all attribute-less rows removed, so
processing continues and the run is not aborted — but no warning and no
`InvalidInputError` is produced: no console message of the run is a
per-row warning. -/
theorem claim6_null_rows_silently_dropped (log : List Obs) (c : Nat) :
    getAsnMigrations log c
      = getAsnMigrations (log.filter (fun o => o.asn.isSome)) c ∧
    (∀ row : Obs, LogMessage.rowWarning row ∉ getAsnMessages log c) := by
  constructor
  · unfold getAsnMigrations sortMigrationsDesc asnTransitionsAll
      allHostnames entityTransitions entityRows
    rw [windowedRows_filter_isSome]
  · intro row hrow
    unfold getAsnMessages at hrow
    rw [List.mem_append] at hrow
    rcases hrow with hrow | hrow
    · simp [debugRange] at hrow
    · by_cases hem : (getAsnMigrations log c).isEmpty <;>
        simp [hem] at hrow

/-- C6 counterexample: on a log whose usable row at `t=2` lacks an
attribute, the run completes normally — the row is bridged over,
producing the transition `A→B` from `t=1` to `t=3` — and the full
console output contains no warning and no `InvalidInputError` for the
skipped row, refuting "skips that row with a warning ...
(raising/recording InvalidInputError for the row)". -/
theorem claim6_no_warning_counterexample :
    getAsnMigrations logNullAsn 0 = [⟨"h", "A", "B", 1, 3⟩] ∧
    getAsnMessages logNullAsn 0 =
      [LogMessage.lookingAfter 0, LogMessage.dataRange 1 3 1 2 3,
        LogMessage.foundCount 1, LogMessage.sampleShown] ∧
    LogMessage.rowWarning ⟨"h", none, 2, true⟩ ∉ getAsnMessages logNullAsn 0 :=
  ⟨rfl, rfl, by decide⟩

/-- C7 (amended): only the pivot detector pre-filters observations to
`success = 1` (its result is unchanged by dropping failed rows); the
windowed detector applies no success filter, so rows with
`success = 0` participate in its transitions. -/
theorem claim7_success_filter_split (log : List Obs) :
    hostnameAsns (log.filter (fun o => o.success)) = hostnameAsns log ∧
    getAsnMigrations logFailedRow 0 = [⟨"h", "A", "B", 1, 2⟩] := by
  constructor
  · unfold hostnameAsns hostAsnPairs pairRows
    rw [usableRows_filter_success]
  · rfl

/-- C7 counterexample: the row `(h, B, t=2)` has `success = 0`, yet the
windowed detector derives the transition `A→B` from it, refuting "rows
with success == false are filtered out before intervals or transitions
are derived". -/
theorem claim7_failed_row_participates_counterexample :
    getAsnMigrations logFailedRow 0 = [⟨"h", "A", "B", 1, 2⟩] ∧
    (⟨"h", some "B", 2, false⟩ : Obs) ∈ logFailedRow ∧
    (⟨"h", some "B", 2, false⟩ : Obs).success = false :=
  ⟨rfl, by decide, rfl⟩

/-- C8: when no observation falls after the cutoff, the pipeline returns
an empty windowed row set, an empty interval set for every entity and an
empty transition set, and `main` reports the explicit no-data outcome
for the window rather than an error. -/
theorem claim8_empty_window_graceful (log : List Obs) (c hours : Nat)
    (hcut : ∀ o ∈ log, o.timestamp ≤ c) :
    windowedRows log c = [] ∧
    getAsnMigrations log c = [] ∧
    (∀ h : String, entityIntervals log c h = []) ∧
    mainReport (getAsnMigrations log c) hours = Report.noData hours := by
  have hw : windowedRows log c = [] := by
    refine List.filter_eq_nil_iff.mpr ?_
    intro o ho
    have hle : ¬c < o.timestamp := Nat.not_lt.mpr (hcut o ho)
    simp [hle]
  have hmig : getAsnMigrations log c = [] := by
    unfold getAsnMigrations sortMigrationsDesc asnTransitionsAll
      allHostnames
    rw [hw]
    rfl
  refine ⟨hw, hmig, ?_, ?_⟩
  · intro h
    unfold entityIntervals entityRows
    rw [hw]
    rfl
  · rw [hmig]
    rfl

/-- C8 witness: a log whose only observation is at `t = 1` has nothing
after cutoff `5`; the 48-hour window is then reported as the no-data
outcome with an empty result set. -/
theorem claim8_empty_window_graceful_witness :
    getAsnMigrations logBeforeCutoff 5 = [] ∧
    mainReport (getAsnMigrations logBeforeCutoff 5) 48 = Report.noData 48 :=
  ⟨(claim8_empty_window_graceful logBeforeCutoff 5 48 (by decide)).2.1,
    (claim8_empty_window_graceful logBeforeCutoff 5 48 (by decide)).2.2.2⟩

/-- C9 (amended): in the pivot computation every `(entity, attribute)`
pair contributes at most one group (the group keys are pairwise
distinct), whose span `[first_seen, last_seen]` bounds the timestamp of
every successful row of that pair over the entire unwindowed history and
is attained by successful rows; rows with `success = 0` are excluded
from the span (see the counterexample). -/
theorem claim9_pivot_group_span (log : List Obs) :
    (hostnameAsns log).Pairwise
      (fun x y => x.hostname ≠ y.hostname ∨ x.asn ≠ y.asn) ∧
    (∀ x ∈ hostnameAsns log, ∀ o ∈ log,
      o.success = true → o.hostname = x.hostname → o.asn = some x.asn →
        x.first_seen ≤ o.timestamp ∧ o.timestamp ≤ x.last_seen) ∧
    (∀ x ∈ hostnameAsns log,
      (∃ o ∈ log, o.success = true ∧ o.hostname = x.hostname ∧
        o.asn = some x.asn ∧ o.timestamp = x.first_seen) ∧
      (∃ o ∈ log, o.success = true ∧ o.hostname = x.hostname ∧
        o.asn = some x.asn ∧ o.timestamp = x.last_seen)) := by
  refine ⟨?_, ?_, ?_⟩
  · unfold hostnameAsns
    refine List.pairwise_map.mpr ?_
    have hnd : (hostAsnPairs log).Nodup := by
      unfold hostAsnPairs
      exact List.nodup_dedup _
    refine hnd.imp ?_
    intro p q hpq
    by_cases h1 : p.1 = q.1
    · by_cases h2 : p.2 = q.2
      · exact absurd (Prod.ext h1 h2) hpq
      · exact Or.inr h2
    · exact Or.inl h1
  · intro x hx o ho hsucc hh ha
    obtain ⟨_, hfs, hls⟩ := mem_hostnameAsns hx
    have hop : o ∈ pairRows log x.hostname x.asn :=
      mem_pairRows.mpr ⟨ho, hsucc, hh, ha⟩
    exact ⟨hfs ▸ minTs_le hop, hls ▸ le_maxTs hop⟩
  · intro x hx
    obtain ⟨hne, hfs, hls⟩ := mem_hostnameAsns hx
    constructor
    · obtain ⟨o, hop, heq⟩ := minTs_attained hne
      obtain ⟨holog, hsucc, hh, ha⟩ := mem_pairRows.mp hop
      exact ⟨o, holog, hsucc, hh, ha, by rw [hfs, heq]⟩
    · obtain ⟨o, hop, heq⟩ := maxTs_attained hne
      obtain ⟨holog, hsucc, hh, ha⟩ := mem_pairRows.mp hop
      exact ⟨o, holog, hsucc, hh, ha, by rw [hls, heq]⟩

/-- C9 witness: the group `(h, A)` of the failed-first log spans `[2,2]`,
and bounds the successful row at `t = 2`, by the span theorem. -/
theorem claim9_pivot_group_span_witness :
    (⟨"h", "A", 2, 2⟩ : HostAsn).first_seen ≤
        (⟨"h", some "A", 2, true⟩ : Obs).timestamp ∧
      (⟨"h", some "A", 2, true⟩ : Obs).timestamp ≤
        (⟨"h", "A", 2, 2⟩ : HostAsn).last_seen :=
  (claim9_pivot_group_span logFailedFirst).2.1
    ⟨"h", "A", 2, 2⟩ (by decide)
    ⟨"h", some "A", 2, true⟩ (by decide) rfl rfl rfl

/-- C9 counterexample: the pair `(h, A)` has rows at `t=1` (with
`success = 0`) and `t=2`, yet its group spans `[2,2]`, not
`[MIN, MAX] = [1,2]` of all that pair's rows, refuting "spanning
[MIN(timestamp), MAX(timestamp)] of all that pair's rows over the
entire unwindowed observation history". -/
theorem claim9_failed_row_excluded_counterexample :
    hostnameAsns logFailedFirst = [⟨"h", "A", 2, 2⟩] ∧
    (⟨"h", some "A", 1, false⟩ : Obs) ∈ logFailedFirst :=
  ⟨rfl, by decide⟩

/-- C10: the windowed detector returns at most 50 records; every
returned record is a detected transition, and every detected transition
omitted from the result has a start time at most that of every returned
record (the result keeps the latest transitions by start time). -/
theorem claim10_limit_fifty (log : List Obs) (c : Nat) :
    (getAsnMigrations log c).length ≤ 50 ∧
    (∀ m ∈ getAsnMigrations log c, m ∈ asnTransitionsAll log c) ∧
    (∀ m ∈ asnTransitionsAll log c, m ∉ getAsnMigrations log c →
      ∀ m2 ∈ getAsnMigrations log c, m.start_time ≤ m2.start_time) := by
  refine ⟨List.length_take_le 50 _, ?_, ?_⟩
  · intro m hm
    have hms : m ∈ sortMigrationsDesc (asnTransitionsAll log c) :=
      List.mem_of_mem_take hm
    exact (sortBy_perm _ _).mem_iff.mp hms
  · intro m hmall hmout m2 hm2
    have hp := sortMigrationsDesc_sorted (asnTransitionsAll log c)
    have hms : m ∈ sortMigrationsDesc (asnTransitionsAll log c) :=
      (sortBy_perm _ _).mem_iff.mpr hmall
    have hsplit := List.take_append_drop 50
      (sortMigrationsDesc (asnTransitionsAll log c))
    have hmdrop : m ∈ (sortMigrationsDesc (asnTransitionsAll log c)).drop 50 := by
      rcases List.mem_append.mp (hsplit ▸ hms) with hmem | hmem
      · exact absurd hmem hmout
      · exact hmem
    have hp2 : ((sortMigrationsDesc (asnTransitionsAll log c)).take 50 ++
        (sortMigrationsDesc (asnTransitionsAll log c)).drop 50).Pairwise
        (fun a b => b.start_time ≤ a.start_time) := by
      rw [hsplit]
      exact hp
    exact (List.pairwise_append.mp hp2).2.2 m2 hm2 m hmdrop

/-- C10 witness: the transition of hostname `y` returned for the
two-host log is one of the detected transitions, by the limit
theorem. -/
theorem claim10_limit_fifty_witness :
    (⟨"y", "C", "D", 2, 3⟩ : Migration) ∈ asnTransitionsAll logTwoHosts 0 :=
  (claim10_limit_fifty logTwoHosts 0).2.1
    ⟨"y", "C", "D", 2, 3⟩ (by decide)
